import Mathlib

/-!
Verification development for the rivet CI/CD orchestration platform.

Shallow embedding of the core data model and operations of the repository:
the orchestrator's parameter validator and job state machine
(rivet-orchestrator/src/service/job.rs, repository/job.rs), the log batch
validator (service/log.rs), the repository listing queries, the runner's
container manager and Lua container/input modules
(rivet-runner/src/podman.rs, lua/modules/container.rs, lua/modules/input.rs,
lua/executor.rs), and the pipeline metadata parser (rivet-lua/src/parser.rs).

Each definition is translated from the named source function; comments point
at the file and function it embeds.
-/

set_option maxRecDepth 8000

namespace Rivet

/-! ## JSON value model

Models serde_json::Value as used by the orchestrator and runner.
Numbers are modelled as integers (the claims under study do not depend on
float-specific behaviour; the source stores i64/u64/f64 in
serde_json::Number). -/

inductive Json where
  | str (s : String)
  | num (n : Int)
  | bool (b : Bool)
  | null
  | arr (elems : List Json)
  | obj (fields : List (String × Json))

namespace Json

/-- Decidable equality for the JSON model, by structural recursion. -/
def beq : Json → Json → Bool
  | .str a, .str b => a == b
  | .num a, .num b => a == b
  | .bool a, .bool b => a == b
  | .null, .null => true
  | .arr as, .arr bs => beqList as bs
  | .obj as, .obj bs => beqObj as bs
  | _, _ => false
where
  beqList : List Json → List Json → Bool
    | [], [] => true
    | a :: as, b :: bs => beq a b && beqList as bs
    | _, _ => false
  beqObj : List (String × Json) → List (String × Json) → Bool
    | [], [] => true
    | (ka, va) :: as, (kb, vb) :: bs => ka == kb && beq va vb && beqObj as bs
    | _, _ => false

mutual

theorem beq_eq : ∀ a b : Json, beq a b = true → a = b
  | .str a, .str b, h => by simpa using congrArg Json.str (by simpa [beq] using h)
  | .num a, .num b, h => by simpa using congrArg Json.num (by simpa [beq] using h)
  | .bool a, .bool b, h => by simpa using congrArg Json.bool (by simpa [beq] using h)
  | .null, .null, _ => rfl
  | .arr as, .arr bs, h => by
      have := beqList_eq as bs (by simpa [beq] using h)
      simpa using congrArg Json.arr this
  | .obj as, .obj bs, h => by
      have := beqObj_eq as bs (by simpa [beq] using h)
      simpa using congrArg Json.obj this
  | .str _, .num _, h => by simp [beq] at h
  | .str _, .bool _, h => by simp [beq] at h
  | .str _, .null, h => by simp [beq] at h
  | .str _, .arr _, h => by simp [beq] at h
  | .str _, .obj _, h => by simp [beq] at h
  | .num _, .str _, h => by simp [beq] at h
  | .num _, .bool _, h => by simp [beq] at h
  | .num _, .null, h => by simp [beq] at h
  | .num _, .arr _, h => by simp [beq] at h
  | .num _, .obj _, h => by simp [beq] at h
  | .bool _, .str _, h => by simp [beq] at h
  | .bool _, .num _, h => by simp [beq] at h
  | .bool _, .null, h => by simp [beq] at h
  | .bool _, .arr _, h => by simp [beq] at h
  | .bool _, .obj _, h => by simp [beq] at h
  | .null, .str _, h => by simp [beq] at h
  | .null, .num _, h => by simp [beq] at h
  | .null, .bool _, h => by simp [beq] at h
  | .null, .arr _, h => by simp [beq] at h
  | .null, .obj _, h => by simp [beq] at h
  | .arr _, .str _, h => by simp [beq] at h
  | .arr _, .num _, h => by simp [beq] at h
  | .arr _, .bool _, h => by simp [beq] at h
  | .arr _, .null, h => by simp [beq] at h
  | .arr _, .obj _, h => by simp [beq] at h
  | .obj _, .str _, h => by simp [beq] at h
  | .obj _, .num _, h => by simp [beq] at h
  | .obj _, .bool _, h => by simp [beq] at h
  | .obj _, .null, h => by simp [beq] at h
  | .obj _, .arr _, h => by simp [beq] at h

theorem beqList_eq : ∀ as bs : List Json, beq.beqList as bs = true → as = bs
  | [], [], _ => rfl
  | a :: as, b :: bs, h => by
      have h' : beq a b = true ∧ beq.beqList as bs = true := by
        simpa [beq.beqList, Bool.and_eq_true] using h
      rw [beq_eq a b h'.1, beqList_eq as bs h'.2]
  | [], _ :: _, h => by simp [beq.beqList] at h
  | _ :: _, [], h => by simp [beq.beqList] at h

theorem beqObj_eq : ∀ as bs : List (String × Json), beq.beqObj as bs = true → as = bs
  | [], [], _ => rfl
  | (ka, va) :: as, (kb, vb) :: bs, h => by
      have h' : (ka == kb) = true ∧ beq va vb = true ∧ beq.beqObj as bs = true := by
        simpa [beq.beqObj, Bool.and_eq_true, and_assoc] using h
      have hk : ka = kb := by simpa using h'.1
      rw [hk, beq_eq va vb h'.2.1, beqObj_eq as bs h'.2.2]
  | [], _ :: _, h => by simp [beq.beqObj] at h
  | _ :: _, [], h => by simp [beq.beqObj] at h

end

mutual

theorem beq_refl : ∀ a : Json, beq a a = true
  | .str _ => by simp [beq]
  | .num _ => by simp [beq]
  | .bool _ => by simp [beq]
  | .null => rfl
  | .arr as => by simpa [beq] using beqList_refl as
  | .obj fs => by simpa [beq] using beqObj_refl fs

theorem beqList_refl : ∀ as : List Json, beq.beqList as as = true
  | [] => rfl
  | a :: as => by simp [beq.beqList, beq_refl a, beqList_refl as]

theorem beqObj_refl : ∀ fs : List (String × Json), beq.beqObj fs fs = true
  | [] => rfl
  | (_, v) :: fs => by simp [beq.beqObj, beq_refl v, beqObj_refl fs]

end

instance : DecidableEq Json := fun a b =>
  if h : beq a b = true then .isTrue (beq_eq a b h)
  else .isFalse (fun hab => h (hab ▸ beq_refl a))

/-- Models serde_json::Value::is_string. -/
def isString : Json → Bool
  | .str _ => true
  | _ => false

/-- Models serde_json::Value::is_number. -/
def isNumber : Json → Bool
  | .num _ => true
  | _ => false

/-- Models serde_json::Value::is_boolean. -/
def isBoolean : Json → Bool
  | .bool _ => true
  | _ => false

end Json

/-! ## Parameter validator

Embedding of validate_and_enrich_parameters and validate_input_type from
rivet-orchestrator/src/service/job.rs (lines 204-286).  The caller mapping
(HashMap<String, serde_json::Value>) is modelled as an association list with
distinct keys; HashMap::insert of a key known to be absent is modelled as
appending the binding. -/

/-- Input schema entry, from rivet_lua::PipelineDefinition::InputDefinition
(rivet-lua/src/definition.rs). -/
structure InputDefinition where
  input_type : String
  required : Bool
  default : Option Json
  options : Option (List Json)
deriving DecidableEq

/-- Caller parameter mapping, name → JSON value. -/
abbrev Params := List (String × Json)

/-- Input schema: name → definition, in the iteration order of
PipelineDefinition.inputs. -/
abbrev Schema := List (String × InputDefinition)

/-- Models HashMap lookup (parameters.contains_key / parameters[key]). -/
def lookupParam : Params → String → Option Json
  | [], _ => none
  | (k', v) :: rest, k => if k' == k then some v else lookupParam rest k

/-- Validation errors raised by the job service.  The source uses
JobError::ValidationError with distinct message formats; each distinct
message site is one constructor here. -/
inductive JobValidationError where
  | missingRequiredInput (key : String)
  | unknownInputType (t : String)
  | badInputType (key : String)
  | notInOptions (key : String)
deriving DecidableEq

/-- Models validate_input_type (service/job.rs lines 261-286): the value's
runtime type must match the declared type; a declared type outside
string/number/bool is rejected as unknown. -/
def validate_input_type (name : String) (value : Json) (expected_type : String) :
    Except JobValidationError Unit :=
  if expected_type = "string" then
    if value.isString then .ok () else .error (.badInputType name)
  else if expected_type = "number" then
    if value.isNumber then .ok () else .error (.badInputType name)
  else if expected_type = "bool" then
    if value.isBoolean then .ok () else .error (.badInputType name)
  else .error (.unknownInputType expected_type)

/-- Structural equality used by the options check (service/job.rs lines
227-234): numbers by value, strings by content, booleans directly, any other
pairing is false. -/
def optionMatches (value opt : Json) : Bool :=
  match value, opt with
  | .num a, .num b => a == b
  | .str a, .str b => a == b
  | .bool a, .bool b => a == b
  | _, _ => false

/-- Options check of validate_and_enrich_parameters (service/job.rs lines
226-253): when an options list is present, some option must match. -/
def checkOptions (key : String) (value : Json) (options : Option (List Json)) :
    Except JobValidationError Unit :=
  match options with
  | none => .ok ()
  | some opts =>
    if opts.any (fun opt => optionMatches value opt) then .ok ()
    else .error (.notInOptions key)

/-- One iteration of the loop in validate_and_enrich_parameters
(service/job.rs lines 209-255): absent key adopts the default, or fails when
required, or is skipped; present key is type- and options-checked. -/
def processInput (params : Params) (key : String) (idef : InputDefinition) :
    Except JobValidationError Params :=
  match lookupParam params key with
  | none =>
    match idef.default with
    | some d => .ok (params ++ [(key, d)])
    | none =>
      if idef.required then .error (.missingRequiredInput key)
      else .ok params
  | some value =>
    match validate_input_type key value idef.input_type with
    | .error e => .error e
    | .ok () =>
      match checkOptions key value idef.options with
      | .error e => .error e
      | .ok () => .ok params

/-- Embeds validate_and_enrich_parameters (service/job.rs lines 204-258):
fold of processInput over the schema, starting from the caller mapping. -/
def validate_and_enrich_parameters (inputs : Schema) (params : Params) :
    Except JobValidationError Params :=
  match inputs with
  | [] => .ok params
  | (key, idef) :: rest =>
    match processInput params key idef with
    | .error e => .error e
    | .ok params' => validate_and_enrich_parameters rest params'

/-- Boolean reading of the type check in validate_input_type: value's runtime
type matches the declared type (false for unknown declared types). -/
def typeMatches (value : Json) (t : String) : Bool :=
  if t = "string" then value.isString
  else if t = "number" then value.isNumber
  else if t = "bool" then value.isBoolean
  else false

/-- Boolean reading of the options check: an absent options list always
passes; a present one requires a structural match. -/
def inOptions (value : Json) (options : Option (List Json)) : Bool :=
  match options with
  | none => true
  | some opts => opts.any (fun opt => optionMatches value opt)

/-- Well-formedness of schema defaults: every default matches its declared
type and options.  The source adopts defaults without re-checking them, so
this is exactly the condition under which re-validation accepts them. -/
def DefaultsWellFormed (inputs : Schema) : Prop :=
  ∀ k idef d, (k, idef) ∈ inputs → idef.default = some d →
    typeMatches d idef.input_type = true ∧ inOptions d idef.options = true

/-! ### Validator lemmas -/

theorem validate_input_type_ok_iff (name : String) (v : Json) (t : String) :
    validate_input_type name v t = .ok () ↔ typeMatches v t = true := by
  unfold validate_input_type typeMatches
  by_cases h1 : t = "string"
  · subst h1; cases hv : v.isString <;> simp [hv]
  · by_cases h2 : t = "number"
    · subst h2; cases hv : v.isNumber <;> simp [hv]
    · by_cases h3 : t = "bool"
      · subst h3; cases hv : v.isBoolean <;> simp [hv]
      · simp [h1, h2, h3]

theorem validate_input_type_badInputType (name : String) (v : Json) (t : String)
    (hknown : t = "string" ∨ t = "number" ∨ t = "bool")
    (hbad : typeMatches v t = false) :
    validate_input_type name v t = .error (.badInputType name) := by
  rcases hknown with h | h | h <;> subst h
  · simp only [typeMatches] at hbad
    simp at hbad
    simp [validate_input_type, hbad]
  · simp only [typeMatches] at hbad
    simp at hbad
    simp [validate_input_type, hbad]
  · simp only [typeMatches] at hbad
    simp at hbad
    simp [validate_input_type, hbad]

theorem checkOptions_ok_iff (key : String) (v : Json) (o : Option (List Json)) :
    checkOptions key v o = .ok () ↔ inOptions v o = true := by
  cases o with
  | none => simp [checkOptions, inOptions]
  | some opts =>
      simp only [checkOptions, inOptions]
      cases h : opts.any (fun opt => optionMatches v opt) <;> simp [h]

theorem checkOptions_notInOptions (key : String) (v : Json) (o : Option (List Json))
    (h : inOptions v o = false) : checkOptions key v o = .error (.notInOptions key) := by
  unfold checkOptions
  cases o with
  | none => simp [inOptions] at h
  | some opts =>
      simp only [inOptions] at h
      simp [h]

theorem processInput_present (params : Params) (key : String) (idef : InputDefinition)
    (v : Json) (hv : lookupParam params key = some v) :
    processInput params key idef =
      match validate_input_type key v idef.input_type with
      | .error e => .error e
      | .ok () =>
        match checkOptions key v idef.options with
        | .error e => .error e
        | .ok () => .ok params := by
  unfold processInput
  rw [hv]

theorem processInput_absent (params : Params) (key : String) (idef : InputDefinition)
    (hv : lookupParam params key = none) :
    processInput params key idef =
      match idef.default with
      | some d => .ok (params ++ [(key, d)])
      | none =>
        if idef.required then .error (.missingRequiredInput key) else .ok params := by
  unfold processInput
  rw [hv]

theorem processInput_present_ok (params out : Params) (key : String)
    (idef : InputDefinition) (v : Json) (hv : lookupParam params key = some v)
    (h : processInput params key idef = .ok out) :
    out = params ∧ typeMatches v idef.input_type = true ∧
      inOptions v idef.options = true := by
  rw [processInput_present params key idef v hv] at h
  cases ht : validate_input_type key v idef.input_type with
  | error e => rw [ht] at h; exact absurd h (by simp)
  | ok u =>
    cases u
    rw [ht] at h
    cases ho : checkOptions key v idef.options with
    | error e => rw [ho] at h; exact absurd h (by simp)
    | ok u =>
      cases u
      rw [ho] at h
      refine ⟨by simpa using h.symm, ?_, ?_⟩
      · exact (validate_input_type_ok_iff key v idef.input_type).mp ht
      · exact (checkOptions_ok_iff key v idef.options).mp ho

theorem lookupParam_append (ps : Params) (key k : String) (d : Json) :
    lookupParam (ps ++ [(key, d)]) k =
      match lookupParam ps k with
      | some v => some v
      | none => if key == k then some d else none := by
  induction ps with
  | nil => simp [lookupParam]
  | cons p rest ih =>
      obtain ⟨k', v⟩ := p
      cases hk : (k' == k) <;> simp [lookupParam, hk, ih]

/-- A successful processInput step changes the mapping only by possibly
adopting the default for its own (previously absent) key. -/
theorem processInput_ok_lookup (params out : Params) (key : String)
    (idef : InputDefinition) (h : processInput params key idef = .ok out) (k : String) :
    lookupParam out k = lookupParam params k ∨
      (k = key ∧ lookupParam params k = none ∧
        ∃ d, idef.default = some d ∧ lookupParam out k = some d) := by
  cases hv : lookupParam params key with
  | some v =>
      have := (processInput_present_ok params out key idef v hv h).1
      exact .inl (this ▸ rfl)
  | none =>
      rw [processInput_absent params key idef hv] at h
      cases hd : idef.default with
      | some d =>
          rw [hd] at h
          have hout : out = params ++ [(key, d)] := by simpa using h.symm
          subst hout
          cases hpk : lookupParam params k with
          | some v =>
              left
              simp [lookupParam_append, hpk]
          | none =>
              cases hkk : (key == k) with
              | true =>
                  have hkeyk : key = k := by simpa using hkk
                  right
                  exact ⟨hkeyk.symm, rfl, d, rfl, by simp [lookupParam_append, hpk, hkk]⟩
              | false =>
                  left
                  simp [lookupParam_append, hpk, hkk]
      | none =>
          rw [hd] at h
          cases hr : idef.required with
          | true => rw [hr] at h; exact absurd h (by simp)
          | false =>
              rw [hr] at h
              have : out = params := by simpa using h.symm
              exact .inl (this ▸ rfl)

theorem processInput_ok_lookup_ne (params out : Params) (key : String)
    (idef : InputDefinition) (h : processInput params key idef = .ok out)
    (k : String) (hk : k ≠ key) : lookupParam out k = lookupParam params k := by
  rcases processInput_ok_lookup params out key idef h k with h' | ⟨hkey, _⟩
  · exact h'
  · exact absurd hkey hk

theorem processInput_ok_lookup_some (params out : Params) (key : String)
    (idef : InputDefinition) (h : processInput params key idef = .ok out)
    (k : String) (v : Json) (hv : lookupParam params k = some v) :
    lookupParam out k = some v := by
  rcases processInput_ok_lookup params out key idef h k with h' | ⟨_, hnone, _⟩
  · rw [h', hv]
  · rw [hv] at hnone; exact absurd hnone (by simp)

/-- Values present in the caller mapping survive validation unchanged. -/
theorem validate_lookup_some (inputs : Schema) (params out : Params)
    (h : validate_and_enrich_parameters inputs params = .ok out)
    (k : String) (v : Json) (hv : lookupParam params k = some v) :
    lookupParam out k = some v := by
  induction inputs generalizing params with
  | nil =>
      unfold validate_and_enrich_parameters at h
      have : out = params := by simpa using h.symm
      rw [this, hv]
  | cons hd rest ih =>
      obtain ⟨key, idef⟩ := hd
      unfold validate_and_enrich_parameters at h
      cases hp : processInput params key idef with
      | error e => rw [hp] at h; exact absurd h (by simp)
      | ok params' =>
          rw [hp] at h
          exact ih params' h (processInput_ok_lookup_some params params' key idef hp k v hv)

/-- Keys not declared in the schema are passed through unchanged. -/
theorem validate_lookup_undeclared (inputs : Schema) (params out : Params)
    (h : validate_and_enrich_parameters inputs params = .ok out)
    (k : String) (hk : ∀ idef : InputDefinition, (k, idef) ∉ inputs) :
    lookupParam out k = lookupParam params k := by
  induction inputs generalizing params with
  | nil =>
      unfold validate_and_enrich_parameters at h
      have : out = params := by simpa using h.symm
      rw [this]
  | cons hd rest ih =>
      obtain ⟨key, idef⟩ := hd
      unfold validate_and_enrich_parameters at h
      cases hp : processInput params key idef with
      | error e => rw [hp] at h; exact absurd h (by simp)
      | ok params' =>
          rw [hp] at h
          have hne : k ≠ key := by
            intro hkk
            exact hk idef (by rw [hkk]; exact List.mem_cons_self _ _)
          have h1 := processInput_ok_lookup_ne params params' key idef hp k hne
          have h2 := ih params' h (fun idef' hmem => hk idef' (List.mem_cons_of_mem _ hmem))
          rw [h2, h1]

theorem processInput_badInputType (params : Params) (key : String)
    (idef : InputDefinition) (v : Json) (hv : lookupParam params key = some v)
    (hknown : idef.input_type = "string" ∨ idef.input_type = "number" ∨
      idef.input_type = "bool")
    (hbad : typeMatches v idef.input_type = false) :
    processInput params key idef = .error (.badInputType key) := by
  rw [processInput_present params key idef v hv,
    validate_input_type_badInputType key v idef.input_type hknown hbad]

theorem processInput_notInOptions (params : Params) (key : String)
    (idef : InputDefinition) (v : Json) (hv : lookupParam params key = some v)
    (htype : typeMatches v idef.input_type = true)
    (hopt : inOptions v idef.options = false) :
    processInput params key idef = .error (.notInOptions key) := by
  rw [processInput_present params key idef v hv]
  simp [(validate_input_type_ok_iff key v idef.input_type).mpr htype,
    checkOptions_notInOptions key v idef.options hopt]

theorem processInput_missingRequired (params : Params) (key : String)
    (idef : InputDefinition) (hv : lookupParam params key = none)
    (hd : idef.default = none) (hr : idef.required = true) :
    processInput params key idef = .error (.missingRequiredInput key) := by
  rw [processInput_absent params key idef hv]
  simp [hd, hr]

theorem validate_fails_of_bad (inputs : Schema) (params : Params) (k : String)
    (idef : InputDefinition) (v : Json) (hmem : (k, idef) ∈ inputs)
    (hv : lookupParam params k = some v)
    (hbad : typeMatches v idef.input_type = false ∨ inOptions v idef.options = false) :
    ∃ e, validate_and_enrich_parameters inputs params = .error e := by
  induction inputs generalizing params with
  | nil => exact absurd hmem (List.not_mem_nil _)
  | cons hd rest ih =>
      obtain ⟨key, kdef⟩ := hd
      unfold validate_and_enrich_parameters
      cases hp : processInput params key kdef with
      | error e => exact ⟨e, rfl⟩
      | ok params' =>
          rcases List.mem_cons.mp hmem with heq | hmem'
          · injection heq with h1 h2
            subst h1; subst h2
            have hok := processInput_present_ok params params' k idef v hv hp
            rcases hbad with hb | hb
            · simp [hok.2.1] at hb
            · simp [hok.2.2] at hb
          · have hv' : lookupParam params' k = some v :=
              processInput_ok_lookup_some params params' key kdef hp k v hv
            exact ih params' hmem' hv'

theorem validate_fails_of_missing (inputs : Schema) (params : Params) (k : String)
    (idef : InputDefinition) (hnd : (inputs.map Prod.fst).Nodup)
    (hmem : (k, idef) ∈ inputs) (hv : lookupParam params k = none)
    (hd : idef.default = none) (hr : idef.required = true) :
    ∃ e, validate_and_enrich_parameters inputs params = .error e := by
  induction inputs generalizing params with
  | nil => exact absurd hmem (List.not_mem_nil _)
  | cons hdp rest ih =>
      obtain ⟨key, kdef⟩ := hdp
      rw [List.map_cons] at hnd
      have hkey : key ∉ rest.map Prod.fst := (List.nodup_cons.mp hnd).1
      have hndr : (rest.map Prod.fst).Nodup := (List.nodup_cons.mp hnd).2
      unfold validate_and_enrich_parameters
      cases hp : processInput params key kdef with
      | error e => exact ⟨e, rfl⟩
      | ok params' =>
          rcases List.mem_cons.mp hmem with heq | hmem'
          · injection heq with h1 h2
            subst h1; subst h2
            rw [processInput_absent params k idef hv, hd, hr] at hp
            exact absurd hp (by simp)
          · have hkne : k ≠ key := by
              intro hkk
              exact hkey (hkk ▸ List.mem_map_of_mem Prod.fst hmem')
            have hv' : lookupParam params' k = none := by
              rw [processInput_ok_lookup_ne params params' key kdef hp k hkne, hv]
            exact ih params' hndr hmem' hv'

/-- Successful validation gives each declared input the shape required by the
spec: supplied values survive unchanged with passing checks, defaults are
adopted, and optional inputs without defaults stay absent. -/
theorem validate_ok_shape (inputs : Schema) (params out : Params)
    (hnd : (inputs.map Prod.fst).Nodup)
    (h : validate_and_enrich_parameters inputs params = .ok out) :
    ∀ k idef, (k, idef) ∈ inputs →
      (∀ v, lookupParam params k = some v →
        lookupParam out k = some v ∧ typeMatches v idef.input_type = true ∧
          inOptions v idef.options = true) ∧
      (lookupParam params k = none →
        (∀ d, idef.default = some d → lookupParam out k = some d) ∧
        (idef.default = none → idef.required = false ∧ lookupParam out k = none)) := by
  induction inputs generalizing params with
  | nil => intro k idef hmem; exact absurd hmem (List.not_mem_nil _)
  | cons hdp rest ih =>
      obtain ⟨key, kdef⟩ := hdp
      rw [List.map_cons] at hnd
      have hkey : key ∉ rest.map Prod.fst := (List.nodup_cons.mp hnd).1
      have hndr : (rest.map Prod.fst).Nodup := (List.nodup_cons.mp hnd).2
      unfold validate_and_enrich_parameters at h
      cases hp : processInput params key kdef with
      | error e => rw [hp] at h; exact absurd h (by simp)
      | ok params' =>
          rw [hp] at h
          intro k idef hmem
          rcases List.mem_cons.mp hmem with heq | hmem'
          · injection heq with h1 h2
            subst h1; subst h2
            constructor
            · intro v hv
              have hok := processInput_present_ok params params' k idef v hv hp
              refine ⟨?_, hok.2.1, hok.2.2⟩
              exact validate_lookup_some rest params' out h k v (hok.1 ▸ hv)
            · intro hv
              constructor
              · intro d hdef
                rw [processInput_absent params k idef hv, hdef] at hp
                have hout : params ++ [(k, d)] = params' := by simpa using hp
                have hk' : lookupParam params' k = some d := by
                  rw [← hout]
                  simp [lookupParam_append, hv]
                exact validate_lookup_some rest params' out h k d hk'
              · intro hdef
                rw [processInput_absent params k idef hv, hdef] at hp
                cases hr : idef.required with
                | true => rw [hr] at hp; exact absurd hp (by simp)
                | false =>
                    rw [hr] at hp
                    have hout : params = params' := by simpa using hp
                    refine ⟨rfl, ?_⟩
                    have hundecl : ∀ idef' : InputDefinition, (k, idef') ∉ rest := by
                      intro idef' hmem'
                      exact hkey (List.mem_map_of_mem Prod.fst hmem')
                    rw [validate_lookup_undeclared rest params' out h k hundecl, ← hout, hv]
          · have hkne : k ≠ key := by
              intro hkk
              exact hkey (hkk ▸ List.mem_map_of_mem Prod.fst hmem')
            have hpk := processInput_ok_lookup_ne params params' key kdef hp k hkne
            have hres := ih params' hndr h k idef hmem'
            rw [hpk] at hres
            exact hres

/-- C3: per declared input, a supplied value must type-match and (when
options are present) be one of the options, failing with BadInputType or
NotInOptions; an absent input adopts the default, or fails with
MissingRequiredInput when required, or is omitted; undeclared caller keys
pass through unchanged.  Embeds validate_and_enrich_parameters
(rivet-orchestrator/src/service/job.rs lines 204-286). -/
theorem parameter_validation_spec :
    (∀ params key idef v, lookupParam params key = some v →
      (idef.input_type = "string" ∨ idef.input_type = "number" ∨
        idef.input_type = "bool") →
      typeMatches v idef.input_type = false →
      processInput params key idef = .error (.badInputType key)) ∧
    (∀ params key idef v, lookupParam params key = some v →
      typeMatches v idef.input_type = true → inOptions v idef.options = false →
      processInput params key idef = .error (.notInOptions key)) ∧
    (∀ params key idef, lookupParam params key = none → idef.default = none →
      idef.required = true →
      processInput params key idef = .error (.missingRequiredInput key)) ∧
    (∀ inputs params k idef v, (k, idef) ∈ inputs → lookupParam params k = some v →
      (typeMatches v idef.input_type = false ∨ inOptions v idef.options = false) →
      ∃ e, validate_and_enrich_parameters inputs params = .error e) ∧
    (∀ inputs params k idef, (inputs.map Prod.fst).Nodup → (k, idef) ∈ inputs →
      lookupParam params k = none → idef.default = none → idef.required = true →
      ∃ e, validate_and_enrich_parameters inputs params = .error e) ∧
    (∀ inputs params out, (inputs.map Prod.fst).Nodup →
      validate_and_enrich_parameters inputs params = .ok out →
      (∀ k, (∀ idef : InputDefinition, (k, idef) ∉ inputs) →
        lookupParam out k = lookupParam params k) ∧
      ∀ k idef, (k, idef) ∈ inputs →
        (∀ v, lookupParam params k = some v →
          lookupParam out k = some v ∧ typeMatches v idef.input_type = true ∧
            inOptions v idef.options = true) ∧
        (lookupParam params k = none →
          (∀ d, idef.default = some d → lookupParam out k = some d) ∧
          (idef.default = none → idef.required = false ∧ lookupParam out k = none))) := by
  refine ⟨processInput_badInputType, processInput_notInOptions,
    processInput_missingRequired,
    fun inputs params k idef v hmem hv hbad =>
      validate_fails_of_bad inputs params k idef v hmem hv hbad,
    fun inputs params k idef hnd hmem hv hd hr =>
      validate_fails_of_missing inputs params k idef hnd hmem hv hd hr,
    fun inputs params out hnd h =>
      ⟨fun k hk => validate_lookup_undeclared inputs params out h k hk,
        validate_ok_shape inputs params out hnd h⟩⟩

/-- Witness: the MissingRequiredInput case at a concrete schema entry, and
the default-adoption case at a concrete schema. -/
theorem parameter_validation_spec_witness :
    processInput [] "branch" ⟨"string", true, none, none⟩ =
      .error (.missingRequiredInput "branch") ∧
    lookupParam [("n", Json.num 7)] "n" = some (Json.num 7) := by
  constructor
  · exact parameter_validation_spec.2.2.1 [] "branch" ⟨"string", true, none, none⟩
      rfl rfl rfl
  · exact ((((parameter_validation_spec.2.2.2.2.2
        [("n", ⟨"number", true, some (Json.num 7), none⟩)] [] [("n", Json.num 7)]
        (by decide) rfl).2 "n" ⟨"number", true, some (Json.num 7), none⟩
        (by decide)).2 rfl).1 (Json.num 7) rfl)

/-- C4 counterexample: a default that does not match its declared type is
adopted unchecked by the first validation pass and rejected by the second,
so validate(S, validate(S, I)) differs from validate(S, I). -/
theorem validate_not_idempotent_counterexample :
    validate_and_enrich_parameters
        [("k", ⟨"number", false, some (Json.str "x"), none⟩)] [] =
      .ok [("k", Json.str "x")] ∧
    validate_and_enrich_parameters
        [("k", ⟨"number", false, some (Json.str "x"), none⟩)]
        [("k", Json.str "x")] =
      .error (.badInputType "k") :=
  ⟨rfl, rfl⟩

theorem validate_of_valid (inputs : Schema) (out : Params)
    (hvalid : ∀ k idef, (k, idef) ∈ inputs →
      (∀ v, lookupParam out k = some v →
        typeMatches v idef.input_type = true ∧ inOptions v idef.options = true) ∧
      (lookupParam out k = none → idef.default = none ∧ idef.required = false)) :
    validate_and_enrich_parameters inputs out = .ok out := by
  induction inputs with
  | nil => rfl
  | cons hdp rest ih =>
      obtain ⟨key, kdef⟩ := hdp
      have hhd := hvalid key kdef (List.mem_cons_self _ _)
      unfold validate_and_enrich_parameters
      cases hv : lookupParam out key with
      | some v =>
          have hchecks := hhd.1 v hv
          have hp : processInput out key kdef = .ok out := by
            rw [processInput_present out key kdef v hv]
            simp [(validate_input_type_ok_iff key v kdef.input_type).mpr hchecks.1,
              (checkOptions_ok_iff key v kdef.options).mpr hchecks.2]
          rw [hp]
          exact ih (fun k idef hmem => hvalid k idef (List.mem_cons_of_mem _ hmem))
      | none =>
          have habs := hhd.2 hv
          have hp : processInput out key kdef = .ok out := by
            rw [processInput_absent out key kdef hv, habs.1]
            simp [habs.2]
          rw [hp]
          exact ih (fun k idef hmem => hvalid k idef (List.mem_cons_of_mem _ hmem))

/-- C4 (amended): validation is idempotent on its own output provided every
schema default matches its declared type and options; in general an
ill-typed default breaks idempotence because defaults are adopted without
being re-checked. -/
theorem validate_idempotent_of_wf (inputs : Schema) (params out : Params)
    (hnd : (inputs.map Prod.fst).Nodup) (hwf : DefaultsWellFormed inputs)
    (h : validate_and_enrich_parameters inputs params = .ok out) :
    validate_and_enrich_parameters inputs out = .ok out := by
  apply validate_of_valid
  intro k idef hmem
  have hshape := validate_ok_shape inputs params out hnd h k idef hmem
  constructor
  · intro v hv
    cases hpk : lookupParam params k with
    | some v0 =>
        have hsup := hshape.1 v0 hpk
        have hv0 : v = v0 := by
          have := hv.symm.trans hsup.1
          exact Option.some.inj this
        subst hv0
        exact ⟨hsup.2.1, hsup.2.2⟩
    | none =>
        have habs := hshape.2 hpk
        cases hdef : idef.default with
        | some d =>
            have hd' := habs.1 d hdef
            have hvd : v = d := Option.some.inj (hv.symm.trans hd')
            subst hvd
            exact hwf k idef v hmem hdef
        | none =>
            have := (habs.2 hdef).2
            rw [this] at hv
            exact absurd hv (by simp)
  · intro hv
    cases hpk : lookupParam params k with
    | some v0 =>
        have := (hshape.1 v0 hpk).1
        rw [this] at hv
        exact absurd hv (by simp)
    | none =>
        have habs := hshape.2 hpk
        cases hdef : idef.default with
        | some d =>
            have := habs.1 d hdef
            rw [this] at hv
            exact absurd hv (by simp)
        | none => exact ⟨rfl, (habs.2 hdef).1⟩

/-- Witness for the amended idempotence theorem at a concrete schema with a
well-formed default. -/
theorem validate_idempotent_of_wf_witness :
    validate_and_enrich_parameters
        [("n", ⟨"number", true, some (Json.num 7), none⟩)] [("n", Json.num 7)] =
      .ok [("n", Json.num 7)] := by
  refine validate_idempotent_of_wf
    [("n", ⟨"number", true, some (Json.num 7), none⟩)] [] [("n", Json.num 7)]
    (by decide) ?_ rfl
  intro k idef d hmem hdef
  have heq := List.mem_singleton.mp hmem
  injection heq with h1 h2
  subst h1; subst h2
  injection hdef with h3
  subst h3
  exact ⟨rfl, rfl⟩

/-! ## Job state machine

Embedding of the job service and repository
(rivet-orchestrator/src/service/job.rs, repository/job.rs).  A job row is
modelled by the fields the claims depend on; timestamps are modelled as
set/unset flags. -/

inductive JobStatus where
  | queued
  | running
  | succeeded
  | failed
  | cancelled
  | timedOut
deriving DecidableEq

/-- Job result payload (rivet-core JobResult), restricted to the modelled
fields. -/
structure JobResult where
  success : Bool
  exit_code : Int
  error_message : Option String
deriving DecidableEq

/-- Persisted job row (rivet-core Job / repository JobRow).  started_at_set
and completed_at_set model whether the corresponding timestamp column is
non-null. -/
structure JobRecord where
  status : JobStatus
  runner_id : Option String
  started_at_set : Bool
  completed_at_set : Bool
  result : Option JobResult
deriving DecidableEq

/-- Models repository update_status_to_running (repository/job.rs lines
120-142): UPDATE jobs SET status=Running, started_at, runner_id WHERE id —
note the WHERE clause matches on id only, with no status guard. -/
def update_status_to_running (job : JobRecord) (runner_id : String) : JobRecord :=
  { job with status := .running, started_at_set := true, runner_id := some runner_id }

/-- Models repository update_status_to_completed (repository/job.rs lines
145-167): UPDATE jobs SET status, completed_at WHERE id — again no guard on
the current status. -/
def update_status_to_completed (job : JobRecord) (status : JobStatus) : JobRecord :=
  { job with status := status, completed_at_set := true }

/-- Models repository update_result (repository/job.rs lines 170-191). -/
def update_result (job : JobRecord) (result : JobResult) : JobRecord :=
  { job with result := some result }

/-- Service-level errors of the job service (JobError in service/job.rs),
restricted to the modelled constructors. -/
inductive JobServiceError where
  | invalidState
  | validationError
deriving DecidableEq

/-- Sequential semantics of service reserve_job_for_execution
(service/job.rs lines 94-128): read the job, fail with InvalidState unless
it is Queued, then perform the unguarded update. -/
def reserve_job_for_execution (job : JobRecord) (runner_id : String) :
    Except JobServiceError JobRecord :=
  if job.status ≠ .queued then .error .invalidState
  else .ok (update_status_to_running job runner_id)

/-- Terminal statuses per the specification. -/
def isTerminalStatus : JobStatus → Bool
  | .succeeded | .failed | .timedOut | .cancelled => true
  | _ => false

/-- Models validate_completion_status (service/job.rs lines 191-201). -/
def validate_completion_status (status : JobStatus) : Except JobServiceError Unit :=
  match status with
  | .succeeded | .failed | .timedOut | .cancelled => .ok ()
  | _ => .error .validationError

/-- Models complete_job (service/job.rs lines 131-165): only the TARGET
status is validated; when the job is not in Running state the source merely
logs a warning and the unguarded update proceeds. -/
def complete_job (job : JobRecord) (status : JobStatus) (result : Option JobResult) :
    Except JobServiceError JobRecord :=
  match validate_completion_status status with
  | .error e => .error e
  | .ok () =>
    match result with
    | some r => .ok (update_result (update_status_to_completed job status) r)
    | none => .ok (update_status_to_completed job status)

/-- Models cancel_job (service/job.rs lines 168-185): only Queued or Running
jobs can be cancelled. -/
def cancel_job (job : JobRecord) : Except JobServiceError JobRecord :=
  match job.status with
  | .queued | .running => .ok (update_status_to_completed job .cancelled)
  | _ => .error .invalidState

/-! ### Lease race model

reserve_job_for_execution issues two separate database statements: a SELECT
with an in-process status check, and an UPDATE whose WHERE clause has no
status guard.  Concurrent attempts interleave these atomic statements; the
store serialises individual statements only. -/

/-- Progress of one lease attempt through its two database statements.
finished true means the service call returned success. -/
inductive AttemptPhase where
  | notStarted
  | sawQueued
  | finished (ok : Bool)
deriving DecidableEq

/-- Shared store plus the local phase of two concurrent lease attempts. -/
structure RaceState where
  job : JobRecord
  phaseA : AttemptPhase
  phaseB : AttemptPhase
deriving DecidableEq

/-- Atomic steps available to a two-attempt schedule. -/
inductive RaceStep where
  | readA
  | readB
  | writeA
  | writeB
deriving DecidableEq

/-- The SELECT plus status check of one lease attempt (service/job.rs lines
100-110). -/
def attemptRead (job : JobRecord) : AttemptPhase → AttemptPhase
  | .notStarted => if job.status = .queued then .sawQueued else .finished false
  | p => p

/-- The unguarded UPDATE of one lease attempt (repository
update_status_to_running). -/
def attemptWrite (runner : String) (job : JobRecord) :
    AttemptPhase → JobRecord × AttemptPhase
  | .sawQueued => (update_status_to_running job runner, .finished true)
  | p => (job, p)

/-- One scheduled step of the two-attempt race. -/
def raceStep (runnerA runnerB : String) (s : RaceState) : RaceStep → RaceState
  | .readA => { s with phaseA := attemptRead s.job s.phaseA }
  | .readB => { s with phaseB := attemptRead s.job s.phaseB }
  | .writeA =>
    let p := attemptWrite runnerA s.job s.phaseA
    { s with job := p.1, phaseA := p.2 }
  | .writeB =>
    let p := attemptWrite runnerB s.job s.phaseB
    { s with job := p.1, phaseB := p.2 }

/-- Runs a schedule of interleaved lease steps. -/
def runRace (runnerA runnerB : String) : List RaceStep → RaceState → RaceState
  | [], s => s
  | step :: rest, s => runRace runnerA runnerB rest (raceStep runnerA runnerB s step)

/-- C1: the lease is not atomic.  Serialised attempts behave as the spec
demands (one winner, the loser fails with InvalidStateTransition), but the
interleaving read-read-write-write makes BOTH concurrent attempts succeed on
a single Queued job, with the second write overwriting the first winner's
runner_id — the UPDATE in update_status_to_running carries no status
guard. -/
theorem lease_not_atomic :
    (runRace "r1" "r2" [.readA, .writeA, .readB, .writeB]
        ⟨⟨.queued, none, false, false, none⟩, .notStarted, .notStarted⟩ =
      ⟨⟨.running, some "r1", true, false, none⟩, .finished true, .finished false⟩) ∧
    (runRace "r1" "r2" [.readA, .readB, .writeA, .writeB]
        ⟨⟨.queued, none, false, false, none⟩, .notStarted, .notStarted⟩ =
      ⟨⟨.running, some "r2", true, false, none⟩, .finished true, .finished true⟩) :=
  ⟨rfl, rfl⟩

/-! ### Job state machine theorems -/

theorem complete_job_ok_status (job : JobRecord) (status : JobStatus)
    (result : Option JobResult) (j : JobRecord)
    (h : complete_job job status result = .ok j) : j.status = status := by
  cases status <;> cases result <;>
    simp only [complete_job, validate_completion_status] at h <;>
    first
      | (injection h with h'; subst h'; rfl)
      | injection h

/-- C2 counterexample: complete_job on a job whose status is already
terminal (Succeeded) succeeds and overwrites the status with Failed, instead
of failing and leaving the status unchanged. -/
theorem complete_job_terminal_counterexample :
    complete_job ⟨.succeeded, some "r1", true, true, none⟩ .failed none =
      .ok ⟨.failed, some "r1", true, true, none⟩ :=
  rfl

/-- C2 (amended): the lease permits only Queued→Running and cancel only
\x7bQueued, Running\x7d→Cancelled, failing otherwise with
InvalidStateTransition; complete_job rejects non-terminal target statuses
but does not check the job's current status, so completing an
already-terminal job succeeds and overwrites its status — terminal states
are sinks with respect to lease and cancel only. -/
theorem job_state_machine_spec :
    (∀ job : JobRecord, ∀ runner : String,
      (∃ j, reserve_job_for_execution job runner = .ok j) ↔ job.status = .queued) ∧
    (∀ job : JobRecord, ∀ runner : String, ∀ j : JobRecord,
      reserve_job_for_execution job runner = .ok j →
      j.status = .running ∧ j.runner_id = some runner ∧ j.started_at_set = true) ∧
    (∀ job : JobRecord,
      (∃ j, cancel_job job = .ok j) ↔
        (job.status = .queued ∨ job.status = .running)) ∧
    (∀ job : JobRecord, ∀ j : JobRecord, cancel_job job = .ok j →
      j.status = .cancelled) ∧
    (∀ job : JobRecord, ∀ status : JobStatus, ∀ result : Option JobResult,
      (∃ j, complete_job job status result = .ok j) ↔ isTerminalStatus status = true) ∧
    (∀ job : JobRecord, ∀ status : JobStatus, ∀ result : Option JobResult,
      ∀ j : JobRecord, complete_job job status result = .ok j → j.status = status) := by
  refine ⟨?_, ?_, ?_, ?_, ?_, fun job status result j h =>
    complete_job_ok_status job status result j h⟩
  · intro job runner
    constructor
    · rintro ⟨j, hj⟩
      by_cases h : job.status = .queued
      · exact h
      · simp [reserve_job_for_execution, h] at hj
    · intro h
      exact ⟨update_status_to_running job runner,
        by simp [reserve_job_for_execution, h]⟩
  · intro job runner j h
    by_cases hq : job.status = .queued
    · simp only [reserve_job_for_execution, hq] at h
      simp at h
      subst h
      exact ⟨rfl, rfl, rfl⟩
    · simp [reserve_job_for_execution, hq] at h
  · intro job
    rcases job with ⟨st, rid, sa, ca, res⟩
    cases st <;> simp [cancel_job]
  · intro job j h
    rcases job with ⟨st, rid, sa, ca, res⟩
    cases st <;> simp only [cancel_job] at h <;>
      first
        | (injection h with h'; subst h'; rfl)
        | injection h
  · intro job status result
    cases status <;> cases result <;>
      simp [complete_job, validate_completion_status, isTerminalStatus]

/-- Witness for the amended state machine theorem: a successful lease from
Queued at concrete values. -/
theorem job_state_machine_spec_witness :
    (⟨.running, some "r1", true, false, none⟩ : JobRecord).status = .running ∧
      (⟨.running, some "r1", true, false, none⟩ : JobRecord).runner_id = some "r1" ∧
      (⟨.running, some "r1", true, false, none⟩ : JobRecord).started_at_set = true :=
  job_state_machine_spec.2.1 ⟨.queued, none, false, false, none⟩ "r1"
    ⟨.running, some "r1", true, false, none⟩ rfl

/-! ## Container manager and stage execution

Embedding of ContainerManager (rivet-runner/src/podman.rs), the Lua
container module (rivet-runner/src/lua/modules/container.rs) and the stage
loop of LuaExecutor::execute_pipeline (rivet-runner/src/lua/executor.rs).
Stage scripts are modelled by the sequence of host-primitive calls they
make; podman itself is modelled by an environment naming the images whose
containers fail to start. -/

/-- Per-job container manager state: the image → container-name registry and
the stack of active container names (head = top). -/
structure ContainerState where
  containers : List (String × String)
  stack : List String
deriving DecidableEq

inductive ContainerError where
  | containerStartFailed (image : String)
deriving DecidableEq

/-- Models generate_container_name: deterministic in (job_id, image); the
source combines the job id with a hash of the image. -/
def generate_container_name (job_id image : String) : String :=
  "rivet-job-" ++ job_id ++ "-" ++ image

/-- Registry lookup (containers.get(image) in podman.rs). -/
def lookupContainer : List (String × String) → String → Option String
  | [], _ => none
  | (img, name) :: rest, image =>
    if img == image then some name else lookupContainer rest image

/-- Environment for the podman model: images whose podman run invocation
fails. -/
structure PodmanEnv where
  badImages : List String

/-- Models ensure_container_running (podman.rs lines 99-176): reuse the
registered container for the image, otherwise start one and register it;
ContainerStartFailed when podman run fails. -/
def ensure_container_running (env : PodmanEnv) (job_id : String)
    (st : ContainerState) (image : String) :
    Except ContainerError (String × ContainerState) :=
  match lookupContainer st.containers image with
  | some name => .ok (name, st)
  | none =>
    if image ∈ env.badImages then .error (.containerStartFailed image)
    else
      let name := generate_container_name job_id image
      .ok (name, { st with containers := st.containers ++ [(image, name)] })

/-- Models push_container (podman.rs lines 188-200). -/
def push_container (env : PodmanEnv) (job_id : String) (st : ContainerState)
    (image : String) : Except ContainerError (String × ContainerState) :=
  match ensure_container_running env job_id st image with
  | .error e => .error e
  | .ok (name, st') => .ok (name, { st' with stack := name :: st'.stack })

/-- Models pop_container (podman.rs lines 208-221): pops the top of the
stack, if any. -/
def pop_container (st : ContainerState) : Option String × ContainerState :=
  match st.stack with
  | [] => (none, st)
  | name :: rest => (some name, { st with stack := rest })

/-- Models current_container (podman.rs lines 227-230). -/
def current_container (st : ContainerState) : Option String :=
  st.stack.head?

/-- Abstract model of a Lua stage script as the sequence of host-primitive
calls it makes: process.run, container.run with a nested body, normal
completion, or raising a Lua error. -/
inductive Script where
  | done
  | procRun (cmd : String) (rest : Script)
  | containerRun (image : String) (body : Script) (rest : Script)
  | raiseError (msg : String)

/-- Observable events of a script run: which container each command executed
in, and the container stack operations. -/
inductive Event where
  | execIn (container : String) (cmd : String)
  | pushed (container : String)
  | popped (container : String)
deriving DecidableEq

inductive ScriptError where
  | luaError (msg : String)
  | noActiveContainer
  | startFailed (image : String)
deriving DecidableEq

/-- Operational semantics of a stage script against the container manager.
process.run executes in the container at the top of the stack (podman.rs
exec fails with NoActiveContainer on an empty stack); container.run follows
register_container_module (container.rs lines 20-70): push the container,
call the function, always pop, then propagate the function's error. -/
def runScript (env : PodmanEnv) (job_id : String) :
    ContainerState → Script → ContainerState × List Event × Option ScriptError
  | st, .done => (st, [], none)
  | st, .raiseError msg => (st, [], some (.luaError msg))
  | st, .procRun cmd rest =>
    match current_container st with
    | none => (st, [], some .noActiveContainer)
    | some name =>
      let r := runScript env job_id st rest
      (r.1, .execIn name cmd :: r.2.1, r.2.2)
  | st, .containerRun image body rest =>
    match push_container env job_id st image with
    | .error (.containerStartFailed img) => (st, [], some (.startFailed img))
    | .ok (name, st1) =>
      let rb := runScript env job_id st1 body
      let pp := pop_container rb.1
      match rb.2.2 with
      | some e => (pp.2, .pushed name :: rb.2.1 ++ [.popped name], some e)
      | none =>
        let rr := runScript env job_id pp.2 rest
        (rr.1, .pushed name :: rb.2.1 ++ [.popped name] ++ rr.2.1, rr.2.2)

/-- Outcome of a stage-condition callable as observed by the executor. -/
inductive CondOutcome where
  | value (b : Bool)
  | thrown (msg : String)

/-- Stage definition as parsed for execution (rivet-lua StageDefinition):
name, optional container image, optional condition, script. -/
structure StageDef where
  name : String
  container : Option String
  condition : Option CondOutcome
  script : Script

inductive PipelineOutcome where
  | success
  | stageFailed (stage : String)
deriving DecidableEq

/-- Embeds the stage loop of LuaExecutor::execute_pipeline
(executor.rs lines 67-116): evaluate the condition (skip on false, abort on
throw), then invoke the stage script directly.  The stage's container field
is never consulted and nothing is pushed onto the container stack. -/
def execute_stages (env : PodmanEnv) (job_id : String) :
    ContainerState → List StageDef → ContainerState × List Event × PipelineOutcome
  | st, [] => (st, [], .success)
  | st, stage :: rest =>
    match stage.condition with
    | some (.thrown _) => (st, [], .stageFailed stage.name)
    | some (.value false) => execute_stages env job_id st rest
    | _ =>
      let r := runScript env job_id st stage.script
      match r.2.2 with
      | some _ => (r.1, r.2.1, .stageFailed stage.name)
      | none =>
        let rr := execute_stages env job_id r.1 rest
        (rr.1, r.2.1 ++ rr.2.1, rr.2.2)

/-- Modelled from the spec: the claimed stage loop in which a stage that
declares its own container image has a container pushed for that image
before the script call and popped after it, even on exception (the wrapping
is exactly the container.run semantics).  Comparison definition for C5; the
source executor above does not implement the push/pop. -/
def execute_stages_claim (env : PodmanEnv) (job_id : String) :
    ContainerState → List StageDef → ContainerState × List Event × PipelineOutcome
  | st, [] => (st, [], .success)
  | st, stage :: rest =>
    match stage.condition with
    | some (.thrown _) => (st, [], .stageFailed stage.name)
    | some (.value false) => execute_stages_claim env job_id st rest
    | _ =>
      let wrapped :=
        match stage.container with
        | some image => Script.containerRun image stage.script .done
        | none => stage.script
      let r := runScript env job_id st wrapped
      match r.2.2 with
      | some _ => (r.1, r.2.1, .stageFailed stage.name)
      | none =>
        let rr := execute_stages_claim env job_id r.1 rest
        (rr.1, r.2.1 ++ rr.2.1, rr.2.2)

/-! ### Container stack theorems -/

theorem ensure_container_running_stack (env : PodmanEnv) (job_id : String)
    (st : ContainerState) (image name : String) (st' : ContainerState)
    (h : ensure_container_running env job_id st image = .ok (name, st')) :
    st'.stack = st.stack := by
  unfold ensure_container_running at h
  cases hl : lookupContainer st.containers image with
  | some n =>
      rw [hl] at h
      injection h with h'
      injection h' with h1 h2
      rw [← h2]
  | none =>
      rw [hl] at h
      by_cases hb : image ∈ env.badImages
      · simp [hb] at h
      · simp only [hb, if_false, if_neg] at h
        injection h with h'
        injection h' with h1 h2
        rw [← h2]

theorem push_container_stack (env : PodmanEnv) (job_id : String)
    (st : ContainerState) (image name : String) (st1 : ContainerState)
    (h : push_container env job_id st image = .ok (name, st1)) :
    st1.stack = name :: st.stack := by
  unfold push_container at h
  cases he : ensure_container_running env job_id st image with
  | error e => rw [he] at h; exact absurd h (by simp)
  | ok p =>
      obtain ⟨n, st'⟩ := p
      rw [he] at h
      simp only [Except.ok.injEq, Prod.mk.injEq] at h
      obtain ⟨h1, h2⟩ := h
      rw [← h2, ← h1]
      show n :: st'.stack = n :: st.stack
      rw [ensure_container_running_stack env job_id st image n st' he]

/-- Running any script leaves the container stack exactly as it found it:
every container.run pops the container it pushed, even when its body raises,
and no other primitive touches the stack. -/
theorem runScript_stack (env : PodmanEnv) (job_id : String) :
    ∀ (script : Script) (st : ContainerState),
      ((runScript env job_id st script).1).stack = st.stack := by
  intro script
  induction script with
  | done => intro st; rfl
  | raiseError msg => intro st; rfl
  | procRun cmd rest ih =>
      intro st
      unfold runScript
      cases hc : current_container st with
      | none => rfl
      | some name => simpa using ih st
  | containerRun image body rest ihb ihr =>
      intro st
      unfold runScript
      cases hp : push_container env job_id st image with
      | error e => cases e; rfl
      | ok p =>
          obtain ⟨name, st1⟩ := p
          have hstack1 : st1.stack = name :: st.stack :=
            push_container_stack env job_id st image name st1 hp
          have hbody : ((runScript env job_id st1 body).1).stack = st1.stack := ihb st1
          cases hr : (runScript env job_id st1 body).2.2 with
          | some e =>
              simp only [hr]
              show (pop_container (runScript env job_id st1 body).1).2.stack = st.stack
              unfold pop_container
              rw [hbody, hstack1]
          | none =>
              simp only [hr]
              have hpp : (pop_container (runScript env job_id st1 body).1).2.stack = st.stack := by
                unfold pop_container
                rw [hbody, hstack1]
              have := ihr (pop_container (runScript env job_id st1 body).1).2
              rw [this, hpp]

/-- One-step unfolding of runScript at a containerRun node. -/
theorem runScript_containerRun (env : PodmanEnv) (job_id : String)
    (st : ContainerState) (image : String) (body rest : Script) :
    runScript env job_id st (.containerRun image body rest) =
      match push_container env job_id st image with
      | .error (.containerStartFailed img) => (st, [], some (.startFailed img))
      | .ok (name, st1) =>
        let rb := runScript env job_id st1 body
        let pp := pop_container rb.1
        match rb.2.2 with
        | some e => (pp.2, .pushed name :: rb.2.1 ++ [.popped name], some e)
        | none =>
          let rr := runScript env job_id pp.2 rest
          (rr.1, .pushed name :: rb.2.1 ++ [.popped name] ++ rr.2.1, rr.2.2) :=
  rfl

/-- C6: a container.run call that got past the push restores the container
stack to its state before the call, and an error raised by the function is
still propagated to the caller; the sequence of stack events is push, the
body's events, pop of the pushed container. -/
theorem container_run_spec (env : PodmanEnv) (job_id : String)
    (st : ContainerState) (image : String) (body : Script)
    (name : String) (st1 : ContainerState)
    (h : push_container env job_id st image = .ok (name, st1)) :
    ((runScript env job_id st (.containerRun image body .done)).1).stack = st.stack ∧
    (runScript env job_id st (.containerRun image body .done)).2.2 =
      (runScript env job_id st1 body).2.2 ∧
    (runScript env job_id st (.containerRun image body .done)).2.1 =
      .pushed name :: (runScript env job_id st1 body).2.1 ++ [.popped name] := by
  have hstack := runScript_stack env job_id (.containerRun image body .done) st
  have hun := runScript_containerRun env job_id st image body .done
  rw [h] at hun
  cases hr : (runScript env job_id st1 body).2.2 with
  | some e =>
      simp only [hr] at hun
      refine ⟨hstack, ?_, ?_⟩
      · rw [hun]
      · rw [hun]
  | none =>
      simp only [hr] at hun
      have hdone : runScript env job_id
          (pop_container (runScript env job_id st1 body).1).2 .done =
          ((pop_container (runScript env job_id st1 body).1).2, [], none) := rfl
      rw [hdone] at hun
      refine ⟨hstack, ?_, ?_⟩
      · rw [hun]
      · rw [hun]
        simp

/-- Witness for the container.run theorem at a concrete image and empty
initial stack. -/
theorem container_run_spec_witness :
    ((runScript ⟨[]⟩ "j" ⟨[], []⟩ (.containerRun "A" .done .done)).1).stack = [] ∧
    (runScript ⟨[]⟩ "j" ⟨[], []⟩ (.containerRun "A" .done .done)).2.2 =
      (runScript ⟨[]⟩ "j" ⟨[("A", "rivet-job-j-A")], ["rivet-job-j-A"]⟩ .done).2.2 ∧
    (runScript ⟨[]⟩ "j" ⟨[], []⟩ (.containerRun "A" .done .done)).2.1 =
      .pushed "rivet-job-j-A" ::
        (runScript ⟨[]⟩ "j" ⟨[("A", "rivet-job-j-A")], ["rivet-job-j-A"]⟩ .done).2.1 ++
        [.popped "rivet-job-j-A"] :=
  container_run_spec ⟨[]⟩ "j" ⟨[], []⟩ "A" .done "rivet-job-j-A"
    ⟨[("A", "rivet-job-j-A")], ["rivet-job-j-A"]⟩ rfl

/-- C5: the executor ignores the stage-declared container.  With a default
container D active and a single stage declaring container "A", the source
executor runs the stage's command in D and performs no stack operation,
while the claimed behaviour (execute_stages_claim) pushes a container for
"A", runs the command there, and pops it. -/
theorem stage_container_ignored :
    execute_stages ⟨[]⟩ "j" ⟨[("D", "cD")], ["cD"]⟩
        [⟨"build", some "A", none, .procRun "pwd" .done⟩] =
      (⟨[("D", "cD")], ["cD"]⟩, [.execIn "cD" "pwd"], .success) ∧
    execute_stages_claim ⟨[]⟩ "j" ⟨[("D", "cD")], ["cD"]⟩
        [⟨"build", some "A", none, .procRun "pwd" .done⟩] =
      (⟨[("D", "cD"), ("A", "rivet-job-j-A")], ["cD"]⟩,
        [.pushed "rivet-job-j-A", .execIn "rivet-job-j-A" "pwd",
          .popped "rivet-job-j-A"], .success) :=
  ⟨rfl, rfl⟩


/-! ## Pipeline metadata parser

Embedding of parse_pipeline_metadata (rivet-lua/src/parser.rs lines
62-191).  Lua evaluation is abstracted: the parser model receives the
evaluated script result (none models a script that failed to evaluate).
Lua tables are split into their string-keyed hash part and their array
part. -/

/-- Model of Lua values produced by evaluating a pipeline script. -/
inductive LuaValue where
  | nil
  | boolean (b : Bool)
  | number (n : Int)
  | str (s : String)
  | func (id : Nat)
  | table (fields : List (String × LuaValue)) (seq : List LuaValue)

/-- Hash-part lookup of a Lua table; an absent key reads as nil. -/
def lookupField : List (String × LuaValue) → String → LuaValue
  | [], _ => .nil
  | (k', v) :: rest, k => if k' == k then v else lookupField rest k

/-- Models mlua's FromLua for String on table.get: Lua strings pass through
and numbers coerce to their decimal rendering; any other value fails the
conversion. -/
def luaGetString (fields : List (String × LuaValue)) (key : String) : Option String :=
  match lookupField fields key with
  | .str s => some s
  | .number n => some (toString n)
  | _ => none

/-- Models mlua's FromLua for bool: Lua truthiness (nil and false are
false, everything else true).  This conversion never fails, which makes the
source's backward-compatibility fallback to the optional field dead code. -/
def luaTruthiness : LuaValue → Bool
  | .nil => false
  | .boolean b => b
  | _ => true

/-- Test for a Lua table value. -/
def isLuaTable : LuaValue → Bool
  | .table _ _ => true
  | _ => false

/-- Failure kinds of metadata parsing, one per anyhow context site in
parser.rs. -/
inductive ParseErrorKind where
  | scriptSyntax
  | missingField (field : String)
  | badFieldType (field : String)
  | emptyStages
deriving DecidableEq

/-- Parsed input schema entry (rivet-core InputDefinition as used by the
metadata parser: the default is read as a string). -/
structure InputMetadata where
  input_type : String
  description : Option String
  required : Bool
  default : Option String
deriving DecidableEq

/-- Parsed stage entry (rivet-core StageMetadata): name and optional
container only — the script field is never read. -/
structure StageMetadata where
  name : String
  container : Option String
deriving DecidableEq

/-- Parsed pipeline metadata (rivet-core PipelineMetadata). -/
structure PipelineMetadata where
  name : String
  description : Option String
  requires : List String
  inputs : List (String × InputMetadata)
  stages : List StageMetadata
deriving DecidableEq

/-- Reads the entries of the requires array (sequence_values of Strings in
parse_requires); a non-string entry fails the conversion. -/
def seqStrings : List LuaValue → Except ParseErrorKind (List String)
  | [] => .ok []
  | v :: rest =>
    match v with
    | .str s =>
      match seqStrings rest with
      | .error e => .error e
      | .ok ss => .ok (s :: ss)
    | .number n =>
      match seqStrings rest with
      | .error e => .error e
      | .ok ss => .ok (toString n :: ss)
    | _ => .error (.badFieldType "requires")

/-- Models parse_requires (parser.rs lines 98-115). -/
def parse_requires (fields : List (String × LuaValue)) :
    Except ParseErrorKind (List String) :=
  match lookupField fields "requires" with
  | .nil => .ok []
  | .table _ seq => seqStrings seq
  | _ => .error (.badFieldType "requires")

/-- One entry of the inputs table (body of the pairs loop in parse_inputs,
parser.rs lines 126-156): the value must be a table with a string-coercible
type field. -/
def parse_one_input (v : LuaValue) : Except ParseErrorKind InputMetadata :=
  match v with
  | .table ifields _ =>
    match luaGetString ifields "type" with
    | none => .error (.missingField "type")
    | some t =>
      .ok ⟨t, luaGetString ifields "description",
        luaTruthiness (lookupField ifields "required"),
        luaGetString ifields "default"⟩
  | _ => .error (.badFieldType "inputs")

/-- The pairs loop of parse_inputs over the inputs table. -/
def parseInputList :
    List (String × LuaValue) → Except ParseErrorKind (List (String × InputMetadata))
  | [] => .ok []
  | (k, v) :: rest =>
    match parse_one_input v with
    | .error e => .error e
    | .ok im =>
      match parseInputList rest with
      | .error e => .error e
      | .ok ims => .ok ((k, im) :: ims)

/-- Models parse_inputs (parser.rs lines 118-164). -/
def parse_inputs (fields : List (String × LuaValue)) :
    Except ParseErrorKind (List (String × InputMetadata)) :=
  match lookupField fields "inputs" with
  | .nil => .ok []
  | .table ifields _ => parseInputList ifields
  | _ => .error (.badFieldType "inputs")

/-- One entry of the stages array (body of the sequence loop in
parse_stages, parser.rs lines 174-184): the entry must be a table with a
string-coercible name; only name and container are read — the script field
is not examined. -/
def parse_one_stage : LuaValue → Except ParseErrorKind StageMetadata
  | .table sfields _ =>
    match luaGetString sfields "name" with
    | none => .error (.missingField "name")
    | some n => .ok ⟨n, luaGetString sfields "container"⟩
  | _ => .error (.badFieldType "stages")

/-- The sequence loop of parse_stages over the stages array. -/
def parseStageList : List LuaValue → Except ParseErrorKind (List StageMetadata)
  | [] => .ok []
  | v :: rest =>
    match parse_one_stage v with
    | .error e => .error e
    | .ok sm =>
      match parseStageList rest with
      | .error e => .error e
      | .ok sms => .ok (sm :: sms)

/-- Models parse_stages (parser.rs lines 167-191): the stages field must be
a table; its entries are parsed and an empty result is rejected. -/
def parse_stages (fields : List (String × LuaValue)) :
    Except ParseErrorKind (List StageMetadata) :=
  match lookupField fields "stages" with
  | .table _ seq =>
    match parseStageList seq with
    | .error e => .error e
    | .ok stages =>
      if stages.isEmpty then .error .emptyStages else .ok stages
  | _ => .error (.missingField "stages")

/-- Embeds parse_pipeline_metadata (parser.rs lines 62-95): name first, then
requires, inputs, stages; a failed evaluation or a non-table result is a
script error. -/
def parse_pipeline_metadata (evalResult : Option LuaValue) :
    Except ParseErrorKind PipelineMetadata :=
  match evalResult with
  | none => .error .scriptSyntax
  | some v =>
    match v with
    | .table fields _ =>
      match luaGetString fields "name" with
      | none => .error (.missingField "name")
      | some name =>
        match parse_requires fields with
        | .error e => .error e
        | .ok requires =>
          match parse_inputs fields with
          | .error e => .error e
          | .ok inputs =>
            match parse_stages fields with
            | .error e => .error e
            | .ok stages =>
              .ok ⟨name, luaGetString fields "description", requires, inputs, stages⟩
    | _ => .error .scriptSyntax


/-! ### Metadata parser theorems -/

theorem parseInputList_error_of_mem (ifields : List (String × LuaValue))
    (k : String) (v : LuaValue) (e0 : ParseErrorKind)
    (hmem : (k, v) ∈ ifields) (he : parse_one_input v = .error e0) :
    ∃ e, parseInputList ifields = .error e := by
  induction ifields with
  | nil => exact absurd hmem (List.not_mem_nil _)
  | cons hd rest ih =>
      obtain ⟨k', v'⟩ := hd
      unfold parseInputList
      cases hp : parse_one_input v' with
      | error e => exact ⟨e, rfl⟩
      | ok im =>
          rcases List.mem_cons.mp hmem with heq | hmem'
          · injection heq with h1 h2
            subst h2
            rw [he] at hp
            exact absurd hp (by simp)
          · obtain ⟨e, hrest⟩ := ih hmem'
            rw [hrest]
            exact ⟨e, rfl⟩

theorem parseStageList_error_of_mem (seq : List LuaValue) (v : LuaValue)
    (e0 : ParseErrorKind) (hmem : v ∈ seq) (he : parse_one_stage v = .error e0) :
    ∃ e, parseStageList seq = .error e := by
  induction seq with
  | nil => exact absurd hmem (List.not_mem_nil _)
  | cons hd rest ih =>
      unfold parseStageList
      cases hp : parse_one_stage hd with
      | error e => exact ⟨e, rfl⟩
      | ok sm =>
          rcases List.mem_cons.mp hmem with heq | hmem'
          · subst heq
            rw [he] at hp
            exact absurd hp (by simp)
          · obtain ⟨e, hrest⟩ := ih hmem'
            rw [hrest]
            exact ⟨e, rfl⟩

/-- C7 counterexample: a pipeline whose single stage has a name but no
script callable is accepted by metadata parsing — the stage loop reads only
name and container. -/
theorem stage_without_script_accepted :
    parse_pipeline_metadata (some (.table
        [("name", .str "p"),
         ("stages", .table [] [.table [("name", .str "s")] []])] [])) =
      .ok ⟨"p", none, [], [], [⟨"s", none⟩]⟩ :=
  rfl

/-- C7 (amended): metadata parsing fails on an evaluation failure or a
non-table script result (ScriptSyntax), a missing or non-string-coercible
name (MissingField), a missing or non-table stages field, an empty stages
list (EmptyStages), an input declared without a type, and a stage without a
name; every failure kind lies in \x7bScriptSyntax, MissingField,
BadFieldType, EmptyStages\x7d.  Stage script fields are never examined, so a
stage with a name but no script parses successfully. -/
theorem metadata_parse_spec :
    (parse_pipeline_metadata none = .error .scriptSyntax) ∧
    (∀ v, isLuaTable v = false →
      parse_pipeline_metadata (some v) = .error .scriptSyntax) ∧
    (∀ fields seq, luaGetString fields "name" = none →
      parse_pipeline_metadata (some (.table fields seq)) =
        .error (.missingField "name")) ∧
    (∀ fields seq, isLuaTable (lookupField fields "stages") = false →
      ∃ e, parse_pipeline_metadata (some (.table fields seq)) = .error e) ∧
    (∀ fields seq f, lookupField fields "stages" = .table f [] →
      ∃ e, parse_pipeline_metadata (some (.table fields seq)) = .error e) ∧
    (∀ fields seq ifields is2 k vf vs,
      lookupField fields "inputs" = .table ifields is2 →
      (k, LuaValue.table vf vs) ∈ ifields → luaGetString vf "type" = none →
      ∃ e, parse_pipeline_metadata (some (.table fields seq)) = .error e) ∧
    (∀ fields seq f sseq sf ss2, lookupField fields "stages" = .table f sseq →
      LuaValue.table sf ss2 ∈ sseq → luaGetString sf "name" = none →
      ∃ e, parse_pipeline_metadata (some (.table fields seq)) = .error e) ∧
    (∀ sfields ss2 n, luaGetString sfields "name" = some n →
      parse_one_stage (.table sfields ss2) =
        .ok ⟨n, luaGetString sfields "container"⟩) ∧
    (∀ fields seq nm f sseq stages, luaGetString fields "name" = some nm →
      lookupField fields "requires" = .nil → lookupField fields "inputs" = .nil →
      lookupField fields "stages" = .table f sseq →
      parseStageList sseq = .ok stages → stages.isEmpty = false →
      parse_pipeline_metadata (some (.table fields seq)) =
        .ok ⟨nm, luaGetString fields "description", [], [], stages⟩) ∧
    (∀ r e, parse_pipeline_metadata r = .error e →
      e = .scriptSyntax ∨ (∃ f, e = .missingField f) ∨
        (∃ f, e = .badFieldType f) ∨ e = .emptyStages) := by
  refine ⟨rfl, ?_, ?_, ?_, ?_, ?_, ?_, ?_, ?_, ?_⟩
  · intro v hv
    cases v with
    | table fields seq => simp [isLuaTable] at hv
    | nil => rfl
    | boolean b => rfl
    | number n => rfl
    | str s => rfl
    | func i => rfl
  · intro fields seq hn
    simp [parse_pipeline_metadata, hn]
  · intro fields seq hst
    simp only [parse_pipeline_metadata]
    cases hn : luaGetString fields "name" with
    | none => exact ⟨_, rfl⟩
    | some nm =>
        simp only []
        cases hr : parse_requires fields with
        | error e => simp [hr]
        | ok rs =>
            simp only [hr]
            cases hi : parse_inputs fields with
            | error e => simp [hi]
            | ok is0 =>
                simp only [hi]
                have hstages : ∃ e, parse_stages fields = .error e := by
                  unfold parse_stages
                  cases hl : lookupField fields "stages" with
                  | table f s2 => rw [hl] at hst; simp [isLuaTable] at hst
                  | nil => exact ⟨_, rfl⟩
                  | boolean b => exact ⟨_, rfl⟩
                  | number n => exact ⟨_, rfl⟩
                  | str s => exact ⟨_, rfl⟩
                  | func i => exact ⟨_, rfl⟩
                obtain ⟨e, he⟩ := hstages
                simp [he]
  · intro fields seq f hl
    simp only [parse_pipeline_metadata]
    cases hn : luaGetString fields "name" with
    | none => exact ⟨_, rfl⟩
    | some nm =>
        cases hr : parse_requires fields with
        | error e => simp [hr]
        | ok rs =>
            simp only [hr]
            cases hi : parse_inputs fields with
            | error e => simp [hi]
            | ok is0 =>
                simp only [hi]
                have he : parse_stages fields = .error .emptyStages := by
                  simp [parse_stages, hl, parseStageList]
                simp [he]
  · intro fields seq ifields is2 k vf vs hl hmem htype
    simp only [parse_pipeline_metadata]
    cases hn : luaGetString fields "name" with
    | none => exact ⟨_, rfl⟩
    | some nm =>
        cases hr : parse_requires fields with
        | error e => simp [hr]
        | ok rs =>
            simp only [hr]
            have hone : parse_one_input (.table vf vs) = .error (.missingField "type") := by
              simp [parse_one_input, htype]
            obtain ⟨e, hinp⟩ :=
              parseInputList_error_of_mem ifields k (.table vf vs)
                (.missingField "type") hmem hone
            have hpi : parse_inputs fields = .error e := by
              simp [parse_inputs, hl, hinp]
            simp [hpi]
  · intro fields seq f sseq sf ss2 hl hmem hname
    simp only [parse_pipeline_metadata]
    cases hn : luaGetString fields "name" with
    | none => exact ⟨_, rfl⟩
    | some nm =>
        cases hr : parse_requires fields with
        | error e => simp [hr]
        | ok rs =>
            simp only [hr]
            cases hi : parse_inputs fields with
            | error e => simp [hi]
            | ok is0 =>
                simp only [hi]
                have hone : parse_one_stage (.table sf ss2) = .error (.missingField "name") := by
                  simp [parse_one_stage, hname]
                obtain ⟨e, hsl⟩ :=
                  parseStageList_error_of_mem sseq (.table sf ss2)
                    (.missingField "name") hmem hone
                have hps : parse_stages fields = .error e := by
                  simp [parse_stages, hl, hsl]
                simp [hps]
  · intro sfields ss2 n hn
    simp [parse_one_stage, hn]
  · intro fields seq nm f sseq stages hn hreq hin hs hps hne
    have hri : parse_requires fields = .ok [] := by
      simp [parse_requires, hreq]
    have hii : parse_inputs fields = .ok [] := by
      simp [parse_inputs, hin]
    have hss : parse_stages fields = .ok stages := by
      simp [parse_stages, hs, hps, hne]
    simp [parse_pipeline_metadata, hn, hri, hii, hss]
  · intro r e h
    cases e with
    | scriptSyntax => exact .inl rfl
    | missingField f => exact .inr (.inl ⟨f, rfl⟩)
    | badFieldType f => exact .inr (.inr (.inl ⟨f, rfl⟩))
    | emptyStages => exact .inr (.inr (.inr rfl))

/-- Witness for the amended metadata-parse theorem: a table without a name
field fails with MissingField name. -/
theorem metadata_parse_spec_witness :
    parse_pipeline_metadata (some (.table [] [])) = .error (.missingField "name") :=
  metadata_parse_spec.2.2.1 [] [] rfl


/-! ## Log batch validation

Embedding of validate_log_entries and add_log_entries
(rivet-orchestrator/src/service/log.rs lines 28-92).  Messages are the list
of their Unicode characters so that Rust's String::len — which counts UTF-8
bytes — is expressible. -/

inductive LogLevel where
  | debug
  | info
  | warning
  | error
deriving DecidableEq

/-- Log entry (rivet-core LogEntry); the timestamp is abstracted to a
natural number. -/
structure LogEntry where
  timestamp : Nat
  level : LogLevel
  message : List Char
deriving DecidableEq

/-- Rust String::len of a message: the sum of the UTF-8 encoding sizes of
its characters. -/
def messageByteLen (msg : List Char) : Nat :=
  (msg.map Char.utf8Size).sum

inductive LogValidationError where
  | batchTooLarge
  | messageTooLong (index : Nat)
deriving DecidableEq

/-- The enumerate loop of validate_log_entries: index of the first entry
whose message exceeds 10 000 bytes. -/
def findTooLong : Nat → List LogEntry → Option Nat
  | _, [] => none
  | i, e :: rest =>
    if messageByteLen e.message > 10000 then some i else findTooLong (i + 1) rest

/-- Models validate_log_entries (service/log.rs lines 71-92): batches of
more than 1000 entries are rejected, then the first over-long message (in
bytes) is rejected. -/
def validate_log_entries (entries : List LogEntry) : Except LogValidationError Unit :=
  if entries.length > 1000 then .error .batchTooLarge
  else
    match findTooLong 0 entries with
    | some i => .error (.messageTooLong i)
    | none => .ok ()

/-- Models add_log_entries (service/log.rs lines 28-42) against a store
modelled as the job's current log list; repository add_entries inserts the
entries unchanged, in order. -/
def add_log_entries (store : List LogEntry) (entries : List LogEntry) :
    Except LogValidationError (List LogEntry) :=
  match validate_log_entries entries with
  | .error e => .error e
  | .ok () => .ok (store ++ entries)

/-! ### Log validation theorems -/

theorem messageByteLen_replicate (n : Nat) (c : Char) :
    messageByteLen (List.replicate n c) = n * c.utf8Size := by
  unfold messageByteLen
  rw [List.map_replicate, List.sum_replicate, smul_eq_mul]

theorem findTooLong_none (entries : List LogEntry)
    (h : ∀ e ∈ entries, messageByteLen e.message ≤ 10000) :
    ∀ start, findTooLong start entries = none := by
  induction entries with
  | nil => intro start; rfl
  | cons e rest ih =>
      intro start
      unfold findTooLong
      have he : messageByteLen e.message ≤ 10000 := h e (List.mem_cons_self _ _)
      have hnot : ¬ messageByteLen e.message > 10000 := by omega
      rw [if_neg hnot]
      exact ih (fun e' he' => h e' (List.mem_cons_of_mem _ he')) (start + 1)

theorem findTooLong_some (entries : List LogEntry) (e : LogEntry)
    (hmem : e ∈ entries) (h : messageByteLen e.message > 10000) :
    ∀ start, ∃ i, findTooLong start entries = some i := by
  induction entries with
  | nil => exact absurd hmem (List.not_mem_nil _)
  | cons hd rest ih =>
      intro start
      unfold findTooLong
      by_cases hhd : messageByteLen hd.message > 10000
      · rw [if_pos hhd]
        exact ⟨start, rfl⟩
      · rw [if_neg hhd]
        rcases List.mem_cons.mp hmem with heq | hmem'
        · subst heq
          exact absurd h hhd
        · exact ih hmem' (start + 1)

theorem validate_log_entries_eq (entries : List LogEntry)
    (hlen : ¬ entries.length > 1000) :
    validate_log_entries entries =
      match findTooLong 0 entries with
      | some i => .error (.messageTooLong i)
      | none => .ok () := by
  unfold validate_log_entries
  rw [if_neg hlen]

theorem findTooLong_cons_pos (i : Nat) (e : LogEntry) (rest : List LogEntry)
    (h : messageByteLen e.message > 10000) :
    findTooLong i (e :: rest) = some i := by
  unfold findTooLong
  rw [if_pos h]

/-- C8 counterexample: a single-entry batch whose message has 5001
characters (each the two-byte character é) is within both claimed limits —
1 ≤ 1000 entries and 5001 ≤ 10 000 characters — yet it is rejected, because
the source compares String::len, which counts UTF-8 bytes (10 002 here). -/
theorem log_char_limit_counterexample :
    ([⟨0, .info, List.replicate 5001 'é'⟩] : List LogEntry).length ≤ 1000 ∧
    (List.replicate 5001 'é').length ≤ 10000 ∧
    validate_log_entries [⟨0, .info, List.replicate 5001 'é'⟩] =
      .error (.messageTooLong 0) := by
  have hsize : messageByteLen (List.replicate 5001 'é') = 10002 := by
    rw [messageByteLen_replicate]
    decide
  have hfind : findTooLong 0 [⟨0, .info, List.replicate 5001 'é'⟩] = some 0 :=
    findTooLong_cons_pos 0 _ [] (by
      show messageByteLen (List.replicate 5001 'é') > 10000
      rw [hsize]
      decide)
  refine ⟨by decide, by rw [List.length_replicate]; decide, ?_⟩
  rw [validate_log_entries_eq _ (by decide), hfind]

/-- C8 (amended): a batch is rejected when it has more than 1000 entries or
when some message is longer than 10 000 UTF-8 BYTES (Rust String::len, not
characters); every batch within those byte-measured limits is accepted and
appended to the job's log unchanged. -/
theorem log_batch_validation_spec :
    (∀ entries : List LogEntry, entries.length > 1000 →
      validate_log_entries entries = .error .batchTooLarge) ∧
    (∀ entries : List LogEntry, ∀ e ∈ entries,
      messageByteLen e.message > 10000 →
      ∃ err, validate_log_entries entries = .error err) ∧
    (∀ store entries : List LogEntry, entries.length ≤ 1000 →
      (∀ e ∈ entries, messageByteLen e.message ≤ 10000) →
      add_log_entries store entries = .ok (store ++ entries)) := by
  refine ⟨?_, ?_, ?_⟩
  · intro entries h
    unfold validate_log_entries
    rw [if_pos h]
  · intro entries e hmem h
    unfold validate_log_entries
    by_cases hlen : entries.length > 1000
    · rw [if_pos hlen]
      exact ⟨_, rfl⟩
    · rw [if_neg hlen]
      obtain ⟨i, hi⟩ := findTooLong_some entries e hmem h 0
      rw [hi]
      exact ⟨_, rfl⟩
  · intro store entries hlen hmsg
    have hnot : ¬ entries.length > 1000 := by omega
    unfold add_log_entries validate_log_entries
    rw [if_neg hnot, findTooLong_none entries hmsg 0]

/-- Witness for the amended log-validation theorem: a short two-character
message is accepted and stored unchanged. -/
theorem log_batch_validation_spec_witness :
    add_log_entries [] [⟨0, .info, ['h', 'i']⟩] = .ok [⟨0, .info, ['h', 'i']⟩] :=
  log_batch_validation_spec.2.2 [] [⟨0, .info, ['h', 'i']⟩] (by decide) (by decide)

/-! ## Job listing order

Embedding of the listing queries of repository/job.rs: find_by_status
(ORDER BY requested_at ASC, lines 63-81) and find_by_pipeline (ORDER BY
requested_at DESC, lines 84-100).  The SQL result is modelled as a sort of
the filtered rows. -/

/-- Persisted job row restricted to the columns the queries depend on. -/
structure JobRow where
  id : Nat
  pipeline_id : Nat
  status : JobStatus
  requested_at : Nat
deriving DecidableEq

instance : IsTotal JobRow (fun a b => a.requested_at ≤ b.requested_at) :=
  ⟨fun a b => Nat.le_total a.requested_at b.requested_at⟩

instance : IsTrans JobRow (fun a b => a.requested_at ≤ b.requested_at) :=
  ⟨fun _ _ _ hab hbc => Nat.le_trans hab hbc⟩

instance : IsTotal JobRow (fun a b => b.requested_at ≤ a.requested_at) :=
  ⟨fun a b => Nat.le_total b.requested_at a.requested_at⟩

instance : IsTrans JobRow (fun a b => b.requested_at ≤ a.requested_at) :=
  ⟨fun _ _ _ hab hbc => Nat.le_trans hbc hab⟩

/-- Models find_by_status: SELECT ... WHERE status = $1 ORDER BY
requested_at ASC (oldest request first). -/
def find_by_status (rows : List JobRow) (status : JobStatus) : List JobRow :=
  List.insertionSort (fun a b => a.requested_at ≤ b.requested_at)
    (rows.filter (fun r => r.status == status))

/-- Models find_by_pipeline: SELECT ... WHERE pipeline_id = $1 ORDER BY
requested_at DESC (newest request first). -/
def find_by_pipeline (rows : List JobRow) (pid : Nat) : List JobRow :=
  List.insertionSort (fun a b => b.requested_at ≤ a.requested_at)
    (rows.filter (fun r => r.pipeline_id == pid))

/-- C9: listing a pipeline's jobs returns exactly the pipeline's rows,
newest request first, and listing Queued jobs for polling returns exactly
the Queued rows, oldest request first (FIFO). -/
theorem job_listing_order :
    (∀ rows : List JobRow, ∀ pid : Nat,
      (find_by_pipeline rows pid).Sorted (fun a b => b.requested_at ≤ a.requested_at) ∧
      List.Perm (find_by_pipeline rows pid)
        (rows.filter (fun r => r.pipeline_id == pid))) ∧
    (∀ rows : List JobRow,
      (find_by_status rows .queued).Sorted (fun a b => a.requested_at ≤ b.requested_at) ∧
      List.Perm (find_by_status rows .queued)
        (rows.filter (fun r => r.status == JobStatus.queued))) :=
  ⟨fun _ _ =>
    ⟨List.sorted_insertionSort _ _, List.perm_insertionSort _ _⟩,
   fun _ =>
    ⟨List.sorted_insertionSort _ _, List.perm_insertionSort _ _⟩⟩

/-! ## Input module string coercion

Embedding of register_input_module (rivet-runner/src/lua/modules/input.rs
lines 30-121): every parameter value is converted to a string before being
captured by the module's closures. -/

/-- Lowercase hexadecimal digit, as used by serde_json escape sequences. -/
def hexDigit (n : Nat) : Char :=
  if n < 10 then Char.ofNat (48 + n) else Char.ofNat (87 + n)

/-- serde_json string escaping for one character. -/
def escapeJsonChar (c : Char) : String :=
  if c = '"' then "\\\""
  else if c = '\\' then "\\\\"
  else if c = Char.ofNat 8 then "\\b"
  else if c = Char.ofNat 12 then "\\f"
  else if c = Char.ofNat 10 then "\\n"
  else if c = Char.ofNat 13 then "\\r"
  else if c = Char.ofNat 9 then "\\t"
  else if c.toNat < 32 then
    "\\u00" ++ String.mk [hexDigit (c.toNat / 16), hexDigit (c.toNat % 16)]
  else String.mk [c]

/-- serde_json rendering of a string literal. -/
def escapeJsonString (s : String) : String :=
  "\"" ++ String.join (s.data.map escapeJsonChar) ++ "\""

/-- Comma-separated concatenation. -/
def commaSep : List String → String
  | [] => ""
  | [x] => x
  | x :: y :: rest => x ++ "," ++ commaSep (y :: rest)

mutual

/-- serde_json::to_string for the modelled JSON fragment. -/
def serializeJson : Json → String
  | .str s => escapeJsonString s
  | .num n => toString n
  | .bool b => if b then "true" else "false"
  | .null => "null"
  | .arr xs => "[" ++ commaSep (serializeArr xs) ++ "]"
  | .obj fs => "\x7b" ++ commaSep (serializeObj fs) ++ "\x7d"

def serializeArr : List Json → List String
  | [] => []
  | x :: rest => serializeJson x :: serializeArr rest

def serializeObj : List (String × Json) → List String
  | [] => []
  | (k, v) :: rest => (escapeJsonString k ++ ":" ++ serializeJson v) :: serializeObj rest

end

/-- Models the value coercion at the top of register_input_module (input.rs
lines 34-48): strings pass through unchanged, numbers and booleans render
textually, null becomes the empty string, and any other value is serialized
to its JSON string. -/
def jsonToLuaString : Json → String
  | .str s => s
  | .num n => toString n
  | .bool b => if b then "true" else "false"
  | .null => ""
  | .arr xs => serializeJson (.arr xs)
  | .obj fs => serializeJson (.obj fs)

/-- The string map captured by the module's closures (vars in input.rs). -/
def coerceParams (params : List (String × Json)) : List (String × String) :=
  params.map (fun p => (p.1, jsonToLuaString p.2))

/-- Lookup in the captured string map. -/
def lookupVar : List (String × String) → String → Option String
  | [], _ => none
  | (k', v) :: rest, k => if k' == k then some v else lookupVar rest k

/-- Models input.get(name, default?) (input.rs lines 53-61). -/
def input_get (vars : List (String × String)) (name : String)
    (default : Option String) : Option String :=
  match lookupVar vars name with
  | some v => some v
  | none => default

/-- Models input.require(name) (input.rs lines 64-77). -/
def input_require (vars : List (String × String)) (name : String) :
    Except String String :=
  match lookupVar vars name with
  | some v => .ok v
  | none => .error ("Required input parameter " ++ name ++ " is not set")

/-- Models input.all() (input.rs lines 89-101): the captured string map
itself. -/
def input_all (vars : List (String × String)) : List (String × String) :=
  vars

/-! ### Input coercion theorems -/

theorem lookupVar_coerce (params : List (String × Json)) (name : String) :
    lookupVar (coerceParams params) name =
      (lookupParam params name).map jsonToLuaString := by
  induction params with
  | nil => rfl
  | cons p rest ih =>
      obtain ⟨k, v⟩ := p
      cases hk : (k == name) with
      | true => simp [coerceParams, lookupVar, lookupParam, hk]
      | false =>
          simp [coerceParams, lookupVar, lookupParam, hk]
          simpa [coerceParams] using ih

/-- C10: everything the input module exposes to stage scripts is a string:
the captured map is the parameter map coerced value-wise (strings unchanged,
numbers and booleans textual, null the empty string, arrays and objects
their JSON serialization), and get/require/all observe exactly those coerced
strings. -/
theorem input_module_string_coercion :
    (∀ s, jsonToLuaString (.str s) = s) ∧
    (∀ n : Int, jsonToLuaString (.num n) = toString n) ∧
    (jsonToLuaString (.bool true) = "true" ∧ jsonToLuaString (.bool false) = "false") ∧
    (jsonToLuaString .null = "") ∧
    (∀ xs, jsonToLuaString (.arr xs) = serializeJson (.arr xs)) ∧
    (∀ fs, jsonToLuaString (.obj fs) = serializeJson (.obj fs)) ∧
    (∀ params name default, input_get (coerceParams params) name default =
      match lookupParam params name with
      | some j => some (jsonToLuaString j)
      | none => default) ∧
    (∀ params name v, input_require (coerceParams params) name = .ok v →
      ∃ j, lookupParam params name = some j ∧ v = jsonToLuaString j) ∧
    (∀ params, input_all (coerceParams params) =
      params.map (fun p => (p.1, jsonToLuaString p.2))) := by
  refine ⟨fun s => rfl, fun n => rfl, ⟨rfl, rfl⟩, rfl, fun xs => rfl, fun fs => rfl,
    ?_, ?_, fun params => rfl⟩
  · intro params name default
    unfold input_get
    rw [lookupVar_coerce]
    cases lookupParam params name <;> rfl
  · intro params name v h
    unfold input_require at h
    rw [lookupVar_coerce] at h
    cases hp : lookupParam params name with
    | none => rw [hp] at h; exact absurd h (by simp)
    | some j =>
        rw [hp] at h
        have h2 : Except.ok (jsonToLuaString j) = (Except.ok v : Except String String) := h
        injection h2 with h3
        exact ⟨j, rfl, h3.symm⟩

/-- Witness for the input-coercion theorem: require on a numeric parameter
observes its textual form. -/
theorem input_module_string_coercion_witness :
    ∃ j, lookupParam [("count", Json.num 42)] "count" = some j ∧
      "42" = jsonToLuaString j :=
  input_module_string_coercion.2.2.2.2.2.2.2.1 [("count", Json.num 42)] "count" "42" rfl

end Rivet
